import Mathlib

/-!
Verification of the lotto_app core (src/app.py) against its specification.

The file shallowly embeds the two core components of app.py:

* the Frequency Builder (`load_lottery_data` filtering + `parse_numbers`),
* the Ticket Generator (`weighted_pick` + `generate_ticket`),
* the per-game cache check (`get_cached_freq`).

Randomness is modelled as an infinite stream of natural numbers, consumed
one value per primitive random call.  Python exceptions are modelled as
error results; the unbounded weighted rejection loop is modelled with a
fuel parameter, where exhausting every fuel bound models divergence.
-/

namespace LottoApp

/-- A random source: an infinite stream of natural numbers.  Each primitive
random call consumes the head of the stream. -/
abbrev RandS : Type := Nat → Nat

/-- The stream after one value has been consumed. -/
def stail (s : RandS) : RandS := fun n => s (n + 1)

/-- A frequency distribution as produced by pandas value_counts: a list of
(value, tally) pairs.  pandas orders the pairs by descending tally; the order
of the list is immaterial to every property proved here. -/
abbrev Freq : Type := List (Int × Nat)

/-- The values that carry an entry in a frequency distribution
(the index of the pandas Series). -/
def keys (f : Freq) : List Int := f.map (fun p => p.1)

/-- The sum of all tallies in a distribution. -/
def total (f : Freq) : Nat := (f.map (fun p => p.2)).sum

/-- Select the entry whose cumulative-weight bucket contains r, as
random.choices does with its weights argument. -/
def weightedChoose : Freq → Nat → Option Int
  | [], _ => none
  | (v, w) :: rest, r => if r < w then some v else weightedChoose rest (r - w)

/-- weighted_pick (app.py lines 67-70) specialised to k = 1, the only way
generate_ticket calls it: one frequency-proportional draw.  random.choices
raises a ValueError when the population is empty (the cumulative weight list
is empty / the total weight is zero); that failure is modelled as none. -/
def weighted_pick (f : Freq) (s : RandS) : Option (Int × RandS) :=
  if total f = 0 then none
  else
    match weightedChoose f (s 0 % total f) with
    | some v => some (v, stail s)
    | none => none

/-- random.randint(lo, hi): uniform integer in [lo, hi]; raises ValueError
(modelled none) when the range is empty. -/
def randint (lo hi : Int) (r : Nat) : Option Int :=
  if lo ≤ hi then some (lo + ((r % (hi + 1 - lo).toNat : Nat) : Int)) else none

/-- Adding one drawn value to the Python set `picked`. -/
def insertNew (v : Int) (picked : List Int) : List Int :=
  if v ∈ picked then picked else v :: picked

/-- Result of the weighted rejection loop of generate_ticket. -/
inductive LoopRes where
  | diverged : LoopRes
  | err : LoopRes
  | done (picked : List Int) (s : RandS) : LoopRes

/-- The rejection loop of generate_ticket (app.py lines 76-78):
`while len(picked) < main_count: picked.add(weighted_pick(main_freq, 1)[0])`.
The loop has no bound in the source; `fuel` bounds how many iterations the
model may take, and running out of every fuel bound models divergence. -/
def pickLoop (f : Freq) (target : Nat) : Nat → List Int → RandS → LoopRes
  | 0, picked, s =>
    if target ≤ picked.length then .done picked s else .diverged
  | fuel + 1, picked, s =>
    if target ≤ picked.length then .done picked s
    else
      match weighted_pick f s with
      | none => .err
      | some (v, s') => pickLoop f target fuel (insertNew v picked) s'

/-- The population range(1, n + 1) = [1, ..., n]. -/
def range1 (n : Int) : List Int :=
  (List.range n.toNat).map (fun i => ((i + 1 : Nat) : Int))

/-- The i-th element of a list, defaulting to 0 (only called in bounds). -/
def getDflt : List Int → Nat → Int
  | [], _ => 0
  | x :: _, 0 => x
  | _ :: xs, n + 1 => getDflt xs n

/-- Remove the i-th element of a list. -/
def removeNth : List Int → Nat → List Int
  | [], _ => []
  | _ :: xs, 0 => xs
  | x :: xs, n + 1 => x :: removeNth xs n

/-- random.sample drawing k distinct elements of the population, modelled
as repeated index selection without replacement. -/
def sampleAux : Nat → List Int → RandS → List Int × RandS
  | 0, _, s => ([], s)
  | k + 1, pop, s =>
    let i := s 0 % pop.length
    let x := getDflt pop i
    let p := sampleAux k (removeNth pop i) (stail s)
    (x :: p.1, p.2)

/-- random.sample(pop, k): k distinct elements of pop; raises ValueError
(modelled none) when k exceeds the population size. -/
def sample (pop : List Int) (k : Nat) (s : RandS) : Option (List Int × RandS) :=
  if k ≤ pop.length then some (sampleAux k pop s) else none

/-- A generated ticket: the sorted main numbers plus the special number. -/
structure Ticket where
  mainNums : List Int
  specialNum : Int
deriving DecidableEq

/-- Outcome of generate_ticket: a ticket together with the remaining random
stream, a raised exception, or divergence of the rejection loop. -/
inductive GenResult where
  | ok (t : Ticket) (s : RandS) : GenResult
  | err : GenResult
  | diverged : GenResult

/-- The weighted special-number selection of generate_ticket
(app.py lines 81-84): one frequency-proportional draw from special_freq;
if the drawn value falls outside [1, special_range] it is discarded and a
uniform draw from [1, special_range] is used instead. -/
def pickSpecial (sf : Freq) (special_range : Int) (s : RandS) :
    Option (Int × RandS) :=
  match weighted_pick sf s with
  | none => none
  | some (v, s1) =>
    if 1 ≤ v ∧ v ≤ special_range then some (v, s1)
    else (randint 1 special_range (s1 0)).map (fun w => (w, stail s1))

/-- generate_ticket (app.py lines 73-89).  The weighted branch is taken
exactly when `weighted` holds and both frequency Series are not None; it
accumulates main_count distinct values by repeated weighted draws, sorts
them, then picks the special number with the range-safety fallback.  The
other branch samples main numbers uniformly without replacement from
range(1, main_range + 1) and the special uniformly from
[1, special_range]. -/
def generate_ticket (main_range special_range : Int) (main_count : Nat)
    (weighted : Bool) (main_freq special_freq : Option Freq)
    (s : RandS) (fuel : Nat) : GenResult :=
  match weighted, main_freq, special_freq with
  | true, some mf, some sf =>
    match pickLoop mf main_count fuel [] s with
    | .diverged => .diverged
    | .err => .err
    | .done picked s1 =>
      let main_nums := picked.insertionSort (fun a b => a ≤ b)
      match pickSpecial sf special_range s1 with
      | none => .err
      | some (v, s2) => .ok ⟨main_nums, v⟩ s2
  | _, _, _ =>
    match sample (range1 main_range) main_count s with
    | none => .err
    | some (nums, s1) =>
      let main_nums := nums.insertionSort (fun a b => a ≤ b)
      match randint 1 special_range (s1 0) with
      | none => .err
      | some w => .ok ⟨main_nums, w⟩ (stail s1)

/-- The sorted main numbers of a generation outcome, when it is a ticket. -/
def mainsOf : GenResult → Option (List Int)
  | .ok t _ => some t.mainNums
  | _ => none

/-- The special number of a generation outcome, when it is a ticket. -/
def specialOf : GenResult → Option Int
  | .ok t _ => some t.specialNum
  | _ => none

/-- The all-zero random stream, used for concrete evaluations. -/
def czero : RandS := fun _ => 0

/-! ## The Frequency Builder -/

/-- One row of the historical dataframe as the builder sees it:
the Draw Date column after pd.to_datetime(..., errors="coerce"), of which
only the year is ever read (none models NaT, i.e. an unparseable or missing
date); the raw Winning Numbers cell (none models NaN); the raw special-ball
cell (none models NaN). -/
structure Row where
  drawYear : Option Int
  winningNumbers : Option String
  special : Option String
deriving DecidableEq

/-- The window filter of load_lottery_data (app.py lines 34-36):
cutoff_year = current year - years, and only rows whose parsed Draw Date
has year ≥ cutoff_year survive; a NaT date compares false and is dropped. -/
def load_filter (rows : List Row) (currentYear years : Int) : List Row :=
  rows.filter (fun r =>
    match r.drawYear with
    | some y => decide (currentYear - years ≤ y)
    | none => false)

/-- Whitespace in the sense of Python str.split(). -/
def isSpace (c : Char) : Bool :=
  c = ' ' ∨ c = '\t' ∨ c = '\n' ∨ c = '\r'

/-- Worker for splitWs, accumulating the current token reversed. -/
def splitWsAux : List Char → List Char → List (List Char)
  | [], acc => if acc.isEmpty then [] else [acc.reverse]
  | c :: cs, acc =>
    if isSpace c then
      if acc.isEmpty then splitWsAux cs []
      else acc.reverse :: splitWsAux cs []
    else splitWsAux cs (c :: acc)

/-- Python str.split() with no argument: maximal runs of non-whitespace
characters; leading and trailing whitespace produce no empty tokens (which
also subsumes the preceding str.strip() of the source). -/
def splitWs (cs : List Char) : List (List Char) := splitWsAux cs []

/-- The numeric value of a decimal digit character, none otherwise. -/
def digitVal (c : Char) : Option Nat :=
  if '0' ≤ c ∧ c ≤ '9' then some (c.toNat - '0'.toNat) else none

/-- Worker for parseIntTok: fold decimal digits, none on a non-digit. -/
def parseNatAux : List Char → Nat → Option Nat
  | [], acc => some acc
  | c :: cs, acc =>
    match digitVal c with
    | none => none
    | some d => parseNatAux cs (acc * 10 + d)

/-- Python int(token) on a whitespace-free token: optional sign followed by
one or more decimal digits; anything else raises ValueError (none). -/
def parseIntTok : List Char → Option Int
  | [] => none
  | '-' :: cs =>
    if cs.isEmpty then none else (parseNatAux cs 0).map (fun n => -(n : Int))
  | '+' :: cs =>
    if cs.isEmpty then none else (parseNatAux cs 0).map (fun n => (n : Int))
  | cs => (parseNatAux cs 0).map (fun n => (n : Int))

/-- str(row).strip().split(): whitespace-separated tokens of the
Winning Numbers cell; a NaN cell was dropped by dropna and yields none. -/
def rowMainTokens (r : Row) : List (List Char) :=
  match r.winningNumbers with
  | none => []
  | some s => splitWs s.data

/-- Converting a list of raw tokens with int(...): the first non-numeric
token raises ValueError and aborts the whole parse. -/
def intList : List (List Char) → Except String (List Int)
  | [] => .ok []
  | t :: ts =>
    match parseIntTok t with
    | none => .error "invalid literal for int()"
    | some n => (intList ts).map (fun ns => n :: ns)

/-- pandas value_counts as a tally list: one entry per distinct value,
carrying its number of occurrences.  (pandas sorts the entries by
descending count; the order of entries is immaterial here.) -/
def value_counts (l : List Int) : Freq :=
  l.dedup.map (fun v => (v, l.count v))

/-- The tally a frequency distribution assigns to a value (0 when the value
has no entry). -/
def tally (f : Freq) (v : Int) : Nat :=
  ((f.filter (fun p => p.1 = v)).map (fun p => p.2)).sum

/-- parse_numbers (app.py lines 41-64): flatten and int-convert the
Winning Numbers tokens of every row (dropna skips NaN cells), int-convert
the special cells (dropna skips NaN, astype(int) raises on a non-numeric
cell), and tally both lists with value_counts. -/
def parse_numbers (rows : List Row) : Except String (Freq × Freq) :=
  match intList (rows.flatMap rowMainTokens) with
  | .error e => .error e
  | .ok mains =>
    match intList ((rows.filterMap (fun r => r.special)).map (fun s => s.data)) with
    | .error e => .error e
    | .ok specials => .ok (value_counts mains, value_counts specials)

/-- The Frequency Builder: the window filter of load_lottery_data followed
by parse_numbers. -/
def build (rows : List Row) (currentYear years : Int) :
    Except String (Freq × Freq) :=
  parse_numbers (load_filter rows currentYear years)

/-! ## The per-game cache -/

/-- One slot of CACHE (app.py lines 14-17): the day the slot was last
refreshed and the cached frequency pair.  (The slot also stores the raw
dataframe, which get_cached_freq never reads back; it is omitted.)  The
historical-window size the cached pair was built with is not stored. -/
structure CacheEntry where
  ts : Option Int
  main_freq : Option Freq
  special_freq : Option Freq
deriving DecidableEq

/-- Recompute and store: the else-path of get_cached_freq
(app.py lines 122-130).  `fetch` abstracts load_lottery_data followed by
parse_numbers for the dataset of the game, as a function of the years
argument. -/
def refreshCache (today years : Int) (fetch : Int → Freq × Freq) :
    (Freq × Freq) × CacheEntry :=
  (fetch years, ⟨some today, some (fetch years).1, some (fetch years).2⟩)

/-- get_cached_freq (app.py lines 115-130): if the slot was stamped today
and both cached Series are not None, return the cached pair unchanged;
otherwise recompute for the requested years and restamp.  The years
argument takes no part in the cache-hit test. -/
def get_cached_freq (cache : CacheEntry) (today years : Int)
    (fetch : Int → Freq × Freq) : (Freq × Freq) × CacheEntry :=
  match cache.ts, cache.main_freq, cache.special_freq with
  | some d, some m, some sp =>
    if d = today then ((m, sp), cache)
    else refreshCache today years fetch
  | _, _, _ => refreshCache today years fetch

/-! ## Helper lemmas about the random primitives -/

theorem weightedChoose_mem {f : Freq} {r : Nat} {v : Int}
    (h : weightedChoose f r = some v) : v ∈ keys f := by
  induction f generalizing r with
  | nil => simp [weightedChoose] at h
  | cons p rest ih =>
    obtain ⟨u, w⟩ := p
    simp only [weightedChoose] at h
    split at h
    · simp only [Option.some.injEq] at h
      simp [keys, h]
    · have := ih h
      simp only [keys, List.map_cons, List.mem_cons]
      exact Or.inr this

theorem weightedChoose_isSome {f : Freq} {r : Nat}
    (h : r < total f) : ∃ v, weightedChoose f r = some v := by
  induction f generalizing r with
  | nil => simp [total] at h
  | cons p rest ih =>
    obtain ⟨u, w⟩ := p
    simp only [total, List.map_cons, List.sum_cons] at h
    by_cases hr : r < w
    · exact ⟨u, by simp [weightedChoose, hr]⟩
    · have : r - w < total rest := by
        simp only [total]; omega
      obtain ⟨v, hv⟩ := ih this
      exact ⟨v, by simp [weightedChoose, hr, hv]⟩

theorem weighted_pick_eq {f : Freq} {s : RandS} {v : Int} {s1 : RandS}
    (h : weighted_pick f s = some (v, s1)) : v ∈ keys f ∧ s1 = stail s := by
  unfold weighted_pick at h
  split at h
  · exact absurd h (by simp)
  · split at h
    · next v' hv' =>
      simp only [Option.some.injEq, Prod.mk.injEq] at h
      obtain ⟨rfl, rfl⟩ := h
      exact ⟨weightedChoose_mem hv', rfl⟩
    · exact absurd h (by simp)

theorem weighted_pick_total_pos {f : Freq} (s : RandS)
    (h : 0 < total f) : ∃ v, weighted_pick f s = some (v, stail s) ∧ v ∈ keys f := by
  have hr : s 0 % total f < total f := Nat.mod_lt _ h
  obtain ⟨v, hv⟩ := weightedChoose_isSome hr
  refine ⟨v, ?_, weightedChoose_mem hv⟩
  have hne : ¬ total f = 0 := by omega
  unfold weighted_pick
  simp [hne, hv]

theorem randint_mem {lo hi : Int} {r : Nat} {w : Int}
    (h : randint lo hi r = some w) : lo ≤ w ∧ w ≤ hi := by
  unfold randint at h
  split at h
  · next hle =>
    simp only [Option.some.injEq] at h
    have hpos : (0 : Int) ≤ hi + 1 - lo := by omega
    have hcast : ((hi + 1 - lo).toNat : Int) = hi + 1 - lo := Int.toNat_of_nonneg hpos
    have hlt : r % (hi + 1 - lo).toNat < (hi + 1 - lo).toNat := by
      apply Nat.mod_lt
      omega
    omega
  · exact absurd h (by simp)

theorem mem_insertNew {v x : Int} {p : List Int} :
    x ∈ insertNew v p ↔ x = v ∨ x ∈ p := by
  unfold insertNew
  split
  next hv =>
    constructor
    · exact fun h => Or.inr h
    · rintro (rfl | hx)
      · exact hv
      · exact hx
  next hv => simp

theorem nodup_insertNew {v : Int} {p : List Int} (h : p.Nodup) :
    (insertNew v p).Nodup := by
  unfold insertNew
  split
  · exact h
  · next hv => exact List.nodup_cons.mpr ⟨hv, h⟩

theorem length_insertNew_le {v : Int} {p : List Int} :
    (insertNew v p).length ≤ p.length + 1 := by
  unfold insertNew
  split <;> simp

/-! ## Helper lemmas about the rejection loop -/

theorem pickLoop_done_spec {f : Freq} {target : Nat} :
    ∀ fuel (picked : List Int) (s : RandS) res s1,
      picked.Nodup → picked.length ≤ target →
      (∀ x ∈ picked, x ∈ keys f) →
      pickLoop f target fuel picked s = .done res s1 →
      res.Nodup ∧ res.length = target ∧ ∀ x ∈ res, x ∈ keys f := by
  intro fuel
  induction fuel with
  | zero =>
    intro picked s res s1 hnd hlen hsub h
    unfold pickLoop at h
    split at h
    · next hge =>
      simp only [LoopRes.done.injEq] at h
      obtain ⟨rfl, rfl⟩ := h
      exact ⟨hnd, Nat.le_antisymm hlen hge, hsub⟩
    · exact absurd h (by simp)
  | succ fuel ih =>
    intro picked s res s1 hnd hlen hsub h
    unfold pickLoop at h
    split at h
    · next hge =>
      simp only [LoopRes.done.injEq] at h
      obtain ⟨rfl, rfl⟩ := h
      exact ⟨hnd, Nat.le_antisymm hlen hge, hsub⟩
    · next hlt =>
      split at h
      · exact absurd h (by simp)
      · next v s' hv =>
        obtain ⟨hvk, rfl⟩ := weighted_pick_eq hv
        apply ih (insertNew v picked) (stail s) res s1
          (nodup_insertNew hnd) ?_ ?_ h
        · have := @length_insertNew_le v picked
          omega
        · intro x hx
          rcases mem_insertNew.mp hx with rfl | hx
          · exact hvk
          · exact hsub x hx

theorem pickLoop_diverged {f : Freq} {target : Nat}
    (htot : 0 < total f) (hklt : (keys f).length < target) :
    ∀ fuel (picked : List Int) (s : RandS),
      picked.Nodup → (∀ x ∈ picked, x ∈ keys f) →
      pickLoop f target fuel picked s = .diverged := by
  intro fuel
  induction fuel with
  | zero =>
    intro picked s hnd hsub
    have hle : picked.length ≤ (keys f).length := (hnd.subperm hsub).length_le
    unfold pickLoop
    split
    · omega
    · rfl
  | succ fuel ih =>
    intro picked s hnd hsub
    have hle : picked.length ≤ (keys f).length := (hnd.subperm hsub).length_le
    obtain ⟨v, hv, hvk⟩ := weighted_pick_total_pos s htot
    unfold pickLoop
    split
    · omega
    · rw [hv]
      apply ih (insertNew v picked) (stail s) (nodup_insertNew hnd)
      intro x hx
      rcases mem_insertNew.mp hx with rfl | hx
      · exact hvk
      · exact hsub x hx

/-! ## Helper lemmas about uniform sampling -/

theorem getDflt_mem {l : List Int} {i : Nat} (h : i < l.length) :
    getDflt l i ∈ l := by
  induction l generalizing i with
  | nil => simp at h
  | cons x xs ih =>
    cases i with
    | zero => simp [getDflt]
    | succ n =>
      simp only [List.length_cons, Nat.succ_lt_succ_iff] at h
      simp only [getDflt, List.mem_cons]
      exact Or.inr (ih h)

theorem removeNth_length {l : List Int} {i : Nat} (h : i < l.length) :
    (removeNth l i).length + 1 = l.length := by
  induction l generalizing i with
  | nil => simp at h
  | cons x xs ih =>
    cases i with
    | zero => simp [removeNth]
    | succ n =>
      simp only [List.length_cons, Nat.succ_lt_succ_iff] at h
      simp only [removeNth, List.length_cons]
      have := ih h
      omega

theorem removeNth_subset {l : List Int} {i : Nat} {x : Int}
    (h : x ∈ removeNth l i) : x ∈ l := by
  induction l generalizing i with
  | nil => simp [removeNth] at h
  | cons y ys ih =>
    cases i with
    | zero =>
      simp only [removeNth] at h
      exact List.mem_cons_of_mem _ h
    | succ n =>
      simp only [removeNth, List.mem_cons] at h
      rcases h with rfl | h
      · exact List.mem_cons_self _ _
      · exact List.mem_cons_of_mem _ (ih h)

theorem removeNth_nodup {l : List Int} {i : Nat} (h : l.Nodup) :
    (removeNth l i).Nodup := by
  induction l generalizing i with
  | nil => simp [removeNth]
  | cons y ys ih =>
    obtain ⟨hy, hys⟩ := List.nodup_cons.mp h
    cases i with
    | zero => exact hys
    | succ n =>
      refine List.nodup_cons.mpr ⟨?_, ih hys⟩
      exact fun hmem => hy (removeNth_subset hmem)

theorem getDflt_not_mem_removeNth {l : List Int} {i : Nat}
    (hnd : l.Nodup) (h : i < l.length) : getDflt l i ∉ removeNth l i := by
  induction l generalizing i with
  | nil => simp at h
  | cons y ys ih =>
    obtain ⟨hy, hys⟩ := List.nodup_cons.mp hnd
    cases i with
    | zero =>
      simp only [getDflt, removeNth]
      exact hy
    | succ n =>
      simp only [List.length_cons, Nat.succ_lt_succ_iff] at h
      simp only [getDflt, removeNth, List.mem_cons]
      rintro (heq | hmem)
      · exact hy (heq ▸ getDflt_mem h)
      · exact ih hys h hmem

theorem sampleAux_spec :
    ∀ (k : Nat) (pop : List Int) (s : RandS), k ≤ pop.length → pop.Nodup →
      (sampleAux k pop s).1.length = k ∧ (sampleAux k pop s).1.Nodup ∧
      ∀ x ∈ (sampleAux k pop s).1, x ∈ pop := by
  intro k
  induction k with
  | zero => intro pop s _ _; simp [sampleAux]
  | succ k ih =>
    intro pop s hk hnd
    have hpos : 0 < pop.length := by omega
    have hi : s 0 % pop.length < pop.length := Nat.mod_lt _ hpos
    have hrl : (removeNth pop (s 0 % pop.length)).length + 1 = pop.length :=
      removeNth_length hi
    have hrec := ih (removeNth pop (s 0 % pop.length)) (stail s)
      (by omega) (removeNth_nodup hnd)
    obtain ⟨hlen, hnd2, hsub⟩ := hrec
    refine ⟨?_, ?_, ?_⟩
    · simp only [sampleAux, List.length_cons]
      omega
    · simp only [sampleAux]
      refine List.nodup_cons.mpr ⟨?_, hnd2⟩
      intro hmem
      exact getDflt_not_mem_removeNth hnd hi (hsub _ hmem)
    · simp only [sampleAux, List.mem_cons]
      rintro x (rfl | hx)
      · exact getDflt_mem hi
      · exact removeNth_subset (hsub x hx)

theorem mem_range1 {n x : Int} : x ∈ range1 n ↔ 1 ≤ x ∧ x ≤ n := by
  unfold range1
  constructor
  · intro hx
    obtain ⟨i, hi, rfl⟩ := List.mem_map.mp hx
    have hi2 : i < n.toNat := List.mem_range.mp hi
    omega
  · rintro ⟨h1, h2⟩
    refine List.mem_map.mpr ⟨(x - 1).toNat, List.mem_range.mpr ?_, ?_⟩
    · omega
    · omega

theorem nodup_range1 {n : Int} : (range1 n).Nodup := by
  have hinj : Function.Injective (fun i : Nat => ((i + 1 : Nat) : Int)) := by
    intro a b hab
    simp only [Nat.cast_inj] at hab
    omega
  exact (List.nodup_range _).map hinj

/-! ## Helper lemmas about the special pick and sorting -/

theorem pickSpecial_range {sf : Freq} {sr : Int} {s : RandS} {v : Int} {s1 : RandS}
    (h : pickSpecial sf sr s = some (v, s1)) : 1 ≤ v ∧ v ≤ sr := by
  unfold pickSpecial at h
  split at h
  · exact absurd h (by simp)
  · next v2 s2 hw =>
    split at h
    · next hin =>
      simp only [Option.some.injEq, Prod.mk.injEq] at h
      obtain ⟨rfl, rfl⟩ := h
      exact hin
    · cases hrand : randint 1 sr (s2 0) with
      | none =>
        rw [hrand] at h
        simp at h
      | some w =>
        rw [hrand] at h
        simp only [Option.map_some', Option.some.injEq, Prod.mk.injEq] at h
        obtain ⟨rfl, rfl⟩ := h
        exact randint_mem hrand

theorem sortedMains_spec (l : List Int) :
    (l.insertionSort (fun a b => a ≤ b)).length = l.length ∧
    ((l.insertionSort (fun a b => a ≤ b)).Nodup ↔ l.Nodup) ∧
    (∀ x, x ∈ l.insertionSort (fun a b => a ≤ b) ↔ x ∈ l) ∧
    List.Sorted (fun a b : Int => a ≤ b) (l.insertionSort (fun a b => a ≤ b)) := by
  have hp : (l.insertionSort (fun a b => a ≤ b)).Perm l := List.perm_insertionSort _ l
  exact ⟨hp.length_eq, hp.nodup_iff, fun x => hp.mem_iff,
    List.sorted_insertionSort _ l⟩

/-! ## Helper lemmas about the Frequency Builder -/

theorem intList_error_of_bad :
    ∀ ts : List (List Char), (∃ t ∈ ts, parseIntTok t = none) →
      ∃ e, intList ts = .error e := by
  intro ts
  induction ts with
  | nil => rintro ⟨u, hu, _⟩; simp at hu
  | cons t ts ih =>
    rintro ⟨u, hu, hbad⟩
    rcases List.mem_cons.mp hu with rfl | hu
    · refine ⟨"invalid literal for int()", ?_⟩
      simp [intList, hbad]
    · cases ht : parseIntTok t with
      | none =>
        refine ⟨"invalid literal for int()", ?_⟩
        simp [intList, ht]
      | some n =>
        obtain ⟨e, he⟩ := ih ⟨u, hu, hbad⟩
        refine ⟨e, ?_⟩
        simp only [intList, ht, he]
        rfl

theorem intList_ok_eq :
    ∀ (ts : List (List Char)) (l : List Int), intList ts = .ok l →
      l = ts.filterMap parseIntTok := by
  intro ts
  induction ts with
  | nil =>
    intro l h
    simp only [intList, Except.ok.injEq] at h
    simp [← h]
  | cons t ts ih =>
    intro l h
    cases ht : parseIntTok t with
    | none => simp [intList, ht] at h
    | some n =>
      simp only [intList, ht] at h
      cases hrec : intList ts with
      | error e => rw [hrec] at h; exact absurd h (by simp [Except.map])
      | ok l2 =>
        rw [hrec] at h
        simp only [Except.map, Except.ok.injEq] at h
        subst h
        rw [List.filterMap_cons, ht, ih l2 hrec]

theorem intList_ok_of_all :
    ∀ ts : List (List Char), (∀ t ∈ ts, (parseIntTok t).isSome) →
      intList ts = .ok (ts.filterMap parseIntTok) := by
  intro ts
  induction ts with
  | nil => intro _; rfl
  | cons t ts ih =>
    intro hall
    have ht : (parseIntTok t).isSome := hall t (List.mem_cons_self _ _)
    obtain ⟨n, hn⟩ := Option.isSome_iff_exists.mp ht
    have hrest := ih (fun u hu => hall u (List.mem_cons_of_mem _ hu))
    simp [intList, hn, hrest, Except.map, List.filterMap_cons]

theorem filter_singleton_of_nodup (v : Int) :
    ∀ K : List Int, K.Nodup →
      K.filter (fun u => decide (u = v)) = if v ∈ K then [v] else [] := by
  intro K
  induction K with
  | nil => intro _; simp
  | cons u K ih =>
    intro hnd
    obtain ⟨hu, hK⟩ := List.nodup_cons.mp hnd
    by_cases huv : u = v
    · subst huv
      have hnotm : u ∉ K := hu
      simp [List.filter_cons, ih hK, hnotm]
    · have hmv : (v ∈ u :: K) ↔ (v ∈ K) := by
        simp only [List.mem_cons]
        constructor
        · rintro (rfl | hv)
          · exact absurd rfl huv
          · exact hv
        · exact Or.inr
      simp only [List.filter_cons, huv, decide_eq_true_eq, if_false, ih hK, hmv]

theorem tally_map_nodup (g : Int → Nat) (v : Int) :
    ∀ K : List Int, K.Nodup →
      tally (K.map (fun u => (u, g u))) v = if v ∈ K then g v else 0 := by
  intro K hnd
  have hcomm :
      (K.map (fun u => (u, g u))).filter (fun p => decide (p.1 = v)) =
        (K.filter (fun u => decide (u = v))).map (fun u => (u, g u)) := by
    rw [List.filter_map]
    rfl
  unfold tally
  rw [hcomm, filter_singleton_of_nodup v K hnd]
  split
  · simp
  · simp

theorem tally_value_counts (l : List Int) (v : Int) :
    tally (value_counts l) v = l.count v := by
  unfold value_counts
  rw [tally_map_nodup (fun u => l.count u) v l.dedup (List.nodup_dedup l)]
  by_cases hv : v ∈ l
  · simp [List.mem_dedup, hv]
  · simp only [List.mem_dedup, hv, if_false]
    exact (List.count_eq_zero.mpr hv).symm

theorem parse_numbers_ok_inv {rows : List Row} {m sp : Freq}
    (h : parse_numbers rows = .ok (m, sp)) :
    m = value_counts ((rows.flatMap rowMainTokens).filterMap parseIntTok) ∧
    sp = value_counts
      (((rows.filterMap (fun r => r.special)).map (fun s => s.data)).filterMap parseIntTok) := by
  unfold parse_numbers at h
  cases hm : intList (rows.flatMap rowMainTokens) with
  | error e => rw [hm] at h; exact absurd h (by simp)
  | ok mains =>
    rw [hm] at h
    cases hs : intList ((rows.filterMap (fun r => r.special)).map (fun s => s.data)) with
    | error e => rw [hs] at h; exact absurd h (by simp)
    | ok specials =>
      rw [hs] at h
      simp only [Except.ok.injEq, Prod.mk.injEq] at h
      obtain ⟨h1, h2⟩ := h
      subst h1
      subst h2
      rw [intList_ok_eq _ _ hm, intList_ok_eq _ _ hs]
      exact ⟨rfl, rfl⟩

/-! ## Branch invariants of generate_ticket -/

theorem generate_weighted_eq (mr sr : Int) (mc : Nat) (mf sf : Freq)
    (s : RandS) (fuel : Nat) :
    generate_ticket mr sr mc true (some mf) (some sf) s fuel =
      (match pickLoop mf mc fuel [] s with
       | .diverged => GenResult.diverged
       | .err => GenResult.err
       | .done picked s1 =>
         match pickSpecial sf sr s1 with
         | none => GenResult.err
         | some (v, s2) =>
           GenResult.ok ⟨picked.insertionSort (fun a b => a ≤ b), v⟩ s2) := rfl

theorem generate_uniform_eq {mr sr : Int} {mc : Nat} {w : Bool}
    {mf sf : Option Freq} {s : RandS} {fuel : Nat}
    (hcond : w = false ∨ mf = none ∨ sf = none) :
    generate_ticket mr sr mc w mf sf s fuel =
      (match sample (range1 mr) mc s with
       | none => GenResult.err
       | some (nums, s1) =>
         match randint 1 sr (s1 0) with
         | none => GenResult.err
         | some v =>
           GenResult.ok ⟨nums.insertionSort (fun a b => a ≤ b), v⟩ (stail s1)) := by
  rcases hcond with rfl | rfl | rfl
  · cases mf <;> cases sf <;> rfl
  · cases w <;> cases sf <;> rfl
  · cases w <;> cases mf <;> rfl

theorem generate_weighted_ok_inv {mr sr : Int} {mc : Nat} {mf sf : Freq}
    {s : RandS} {fuel : Nat} {t : Ticket} {s2 : RandS}
    (h : generate_ticket mr sr mc true (some mf) (some sf) s fuel = .ok t s2) :
    t.mainNums.length = mc ∧ t.mainNums.Nodup ∧
    List.Sorted (fun a b : Int => a ≤ b) t.mainNums ∧
    (∀ x ∈ t.mainNums, x ∈ keys mf) ∧
    (1 ≤ t.specialNum ∧ t.specialNum ≤ sr) := by
  rw [generate_weighted_eq] at h
  split at h
  · exact absurd h (by simp)
  · exact absurd h (by simp)
  · next picked s1 hloop =>
    obtain ⟨hnd, hlen, hsub⟩ :=
      pickLoop_done_spec fuel [] s picked s1 List.nodup_nil
        (by simp) (by simp) hloop
    split at h
    · exact absurd h (by simp)
    · next v s3 hps =>
      simp only [GenResult.ok.injEq] at h
      obtain ⟨ht, hs3⟩ := h
      obtain ⟨hL, hN, hM, hS⟩ := sortedMains_spec picked
      refine ⟨?_, ?_, ?_, ?_, ?_⟩
      · rw [← ht]
        simpa [hL] using hlen
      · rw [← ht]
        exact hN.mpr hnd
      · rw [← ht]
        exact hS
      · rw [← ht]
        intro x hx
        exact hsub x ((hM x).mp hx)
      · rw [← ht]
        exact pickSpecial_range hps

theorem generate_uniform_ok_inv {mr sr : Int} {mc : Nat} {w : Bool}
    {mf sf : Option Freq} {s : RandS} {fuel : Nat} {t : Ticket} {s2 : RandS}
    (hcond : w = false ∨ mf = none ∨ sf = none)
    (h : generate_ticket mr sr mc w mf sf s fuel = .ok t s2) :
    t.mainNums.length = mc ∧ t.mainNums.Nodup ∧
    List.Sorted (fun a b : Int => a ≤ b) t.mainNums ∧
    (∀ x ∈ t.mainNums, 1 ≤ x ∧ x ≤ mr) ∧
    (1 ≤ t.specialNum ∧ t.specialNum ≤ sr) := by
  rw [generate_uniform_eq hcond] at h
  split at h
  · exact absurd h (by simp)
  · next nums s1 hs =>
    split at h
    · exact absurd h (by simp)
    · next v hr =>
      simp only [GenResult.ok.injEq] at h
      obtain ⟨ht, hs2⟩ := h
      have hkle : mc ≤ (range1 mr).length := by
        by_contra hgt
        unfold sample at hs
        rw [if_neg hgt] at hs
        exact absurd hs (by simp)
      have hsamp : sampleAux mc (range1 mr) s = (nums, s1) := by
        unfold sample at hs
        rw [if_pos hkle] at hs
        simpa using hs
      obtain ⟨hL, hN, hSub⟩ := sampleAux_spec mc (range1 mr) s hkle nodup_range1
      rw [hsamp] at hL hN hSub
      obtain ⟨hL2, hN2, hM2, hS2⟩ := sortedMains_spec nums
      refine ⟨?_, ?_, ?_, ?_, ?_⟩
      · rw [← ht]
        simpa [hL2] using hL
      · rw [← ht]
        exact hN2.mpr hN
      · rw [← ht]
        exact hS2
      · rw [← ht]
        intro x hx
        exact mem_range1.mp (hSub x ((hM2 x).mp hx))
      · rw [← ht]
        exact randint_mem hr

/-! ## Claim theorems -/

/-- C1: the claim says a request with pickCount greater than mainRange must
fail immediately with a ConstraintError in both modes.  The code has no such
validation: at the failing input mainRange = 3, pickCount = 5 in weighted
mode with the in-range distribution {1:1, 2:1, 3:1}, the rejection loop can
never accumulate 5 distinct values from a 3-element support, so for every
random stream and every iteration bound the generator is still looping
(diverged), and no error of any kind is raised. -/
theorem weighted_overdemand_loops_forever :
    ∀ (s : RandS) (fuel : Nat),
      generate_ticket 3 26 5 true (some [(1, 1), (2, 1), (3, 1)]) (some [(1, 1)]) s fuel
        = GenResult.diverged := by
  intro s fuel
  rw [generate_weighted_eq]
  have h := @pickLoop_diverged [(1, 1), (2, 1), (3, 1)] 5
    (by decide) (by decide) fuel [] s List.nodup_nil (by simp)
  rw [h]

/-- Counterexample for C2: a weighted request whose main distribution is
present but empty takes the weighted branch (the code only tests for None)
and the weighted draw fails, so no structurally valid ticket is produced. -/
theorem empty_dist_weighted_request_fails :
    generate_ticket 69 26 5 true (some []) (some [(1, 1)]) czero 1 = GenResult.err := rfl

/-- C2 as amended: a weighted request whose main frequency distribution is
present but empty (and whose pickCount is positive) fails with an error
rather than returning a ticket; the uniform fallback happens only when a
distribution is absent (None), not when it is empty. -/
theorem empty_dist_errors_no_fallback :
    ∀ (mr sr : Int) (mc : Nat) (sf : Freq) (s : RandS) (fuel : Nat),
      0 < mc → 0 < fuel →
      generate_ticket mr sr mc true (some []) (some sf) s fuel = GenResult.err := by
  intro mr sr mc sf s fuel hmc hfuel
  rw [generate_weighted_eq]
  obtain ⟨f2, rfl⟩ : ∃ f2, fuel = f2 + 1 := ⟨fuel - 1, by omega⟩
  have hloop : pickLoop [] mc (f2 + 1) [] s = LoopRes.err := by
    unfold pickLoop
    rw [if_neg (by simp only [List.length_nil]; omega)]
    rfl
  rw [hloop]

/-- Witness for C2: the amended statement at a concrete input. -/
theorem empty_dist_errors_no_fallback_witness :
    generate_ticket 69 26 5 true (some []) (some [(1, 1)]) czero 2 = GenResult.err :=
  empty_dist_errors_no_fallback 69 26 5 [(1, 1)] czero 2 (by decide) (by decide)

/-- Counterexample for C3: in weighted mode main numbers are taken from the
distribution support without any range validation, so with mainRange = 69
and the distribution {100:1} the generator returns a ticket whose main
number 100 lies outside [1, 69]. -/
theorem weighted_main_out_of_range :
    mainsOf (generate_ticket 69 26 1 true (some [(100, 1)]) (some [(1, 1)]) czero 2)
        = some [100] ∧
    ¬ ((100 : Int) ≤ 69) := ⟨rfl, by decide⟩

/-- C3 as amended: every returned ticket has exactly pickCount main numbers,
pairwise distinct and sorted ascending, in both modes; the bound
1 ≤ x ≤ mainRange additionally holds whenever the uniform path is taken
(weighted = false or a distribution absent).  On the weighted path the main
numbers come from the distribution support and may lie outside the range. -/
theorem ticket_main_numbers_shape :
    ∀ (mr sr : Int) (mc : Nat) (w : Bool) (mf sf : Option Freq)
      (s : RandS) (fuel : Nat) (t : Ticket) (s2 : RandS),
      generate_ticket mr sr mc w mf sf s fuel = GenResult.ok t s2 →
      t.mainNums.length = mc ∧ t.mainNums.Nodup ∧
      List.Sorted (fun a b : Int => a ≤ b) t.mainNums ∧
      ((w = false ∨ mf = none ∨ sf = none) → ∀ x ∈ t.mainNums, 1 ≤ x ∧ x ≤ mr) := by
  intro mr sr mc w mf sf s fuel t s2 h
  cases w with
  | false =>
    obtain ⟨h1, h2, h3, h4, _⟩ := generate_uniform_ok_inv (Or.inl rfl) h
    exact ⟨h1, h2, h3, fun _ => h4⟩
  | true =>
    cases mf with
    | none =>
      obtain ⟨h1, h2, h3, h4, _⟩ := generate_uniform_ok_inv (Or.inr (Or.inl rfl)) h
      exact ⟨h1, h2, h3, fun _ => h4⟩
    | some f =>
      cases sf with
      | none =>
        obtain ⟨h1, h2, h3, h4, _⟩ := generate_uniform_ok_inv (Or.inr (Or.inr rfl)) h
        exact ⟨h1, h2, h3, fun _ => h4⟩
      | some g =>
        obtain ⟨h1, h2, h3, _, _⟩ := generate_weighted_ok_inv h
        refine ⟨h1, h2, h3, ?_⟩
        rintro (hc | hc | hc) <;> simp at hc

/-- Witness for C3: the amended statement at a concrete uniform request. -/
theorem ticket_main_numbers_shape_witness :
    ([(1 : Int), 2]).length = 2 ∧ ([(1 : Int), 2]).Nodup ∧
    List.Sorted (fun a b : Int => a ≤ b) [(1 : Int), 2] ∧
    ((false = false ∨ (none : Option Freq) = none ∨ (none : Option Freq) = none) →
      ∀ x ∈ [(1 : Int), 2], 1 ≤ x ∧ x ≤ 5) :=
  ticket_main_numbers_shape 5 3 2 false none none czero 0 ⟨[1, 2], 1⟩ czero rfl

/-- C4: every returned ticket, in both modes, has its special number within
[1, specialRange]; and on the weighted path, when the frequency-sampled
special value falls outside [1, specialRange], it is discarded and the
special number is instead drawn by randint uniformly from the range. -/
theorem special_in_range_with_fallback :
    (∀ (mr sr : Int) (mc : Nat) (w : Bool) (mf sf : Option Freq)
       (s : RandS) (fuel : Nat) (t : Ticket) (s2 : RandS),
       generate_ticket mr sr mc w mf sf s fuel = GenResult.ok t s2 →
       1 ≤ t.specialNum ∧ t.specialNum ≤ sr) ∧
    (∀ (sf : Freq) (sr : Int) (s : RandS) (v : Int) (s1 : RandS),
       weighted_pick sf s = some (v, s1) → ¬ (1 ≤ v ∧ v ≤ sr) →
       pickSpecial sf sr s = (randint 1 sr (s1 0)).map (fun u => (u, stail s1))) := by
  constructor
  · intro mr sr mc w mf sf s fuel t s2 h
    cases w with
    | false => exact (generate_uniform_ok_inv (Or.inl rfl) h).2.2.2.2
    | true =>
      cases mf with
      | none => exact (generate_uniform_ok_inv (Or.inr (Or.inl rfl)) h).2.2.2.2
      | some f =>
        cases sf with
        | none => exact (generate_uniform_ok_inv (Or.inr (Or.inr rfl)) h).2.2.2.2
        | some g => exact (generate_weighted_ok_inv h).2.2.2.2
  · intro sf sr s v s1 hwp hout
    unfold pickSpecial
    rw [hwp]
    show (if 1 ≤ v ∧ v ≤ sr then some (v, s1)
          else Option.map (fun w => (w, stail s1)) (randint 1 sr (s1 0)))
        = Option.map (fun u => (u, stail s1)) (randint 1 sr (s1 0))
    rw [if_neg hout]

/-- Witness for C4: both conjuncts exercised at concrete inputs: a uniform
request that returns special number 1 in [1, 3], and a weighted special
draw of 99 against specialRange 26, which is discarded for a randint. -/
theorem special_in_range_with_fallback_witness :
    (1 ≤ (1 : Int) ∧ (1 : Int) ≤ 3) ∧
    pickSpecial [((99 : Int), (1 : Nat))] 26 czero
      = (randint 1 26 (stail czero 0)).map (fun u => (u, stail (stail czero))) :=
  ⟨special_in_range_with_fallback.1 5 3 2 false none none czero 0 ⟨[1, 2], 1⟩ czero rfl,
   special_in_range_with_fallback.2 [((99 : Int), (1 : Nat))] 26 czero 99 (stail czero)
     rfl (by decide)⟩

/-- Counterexample for C5: a cache slot stamped today and filled with the
distributions of a 20-year window is returned unchanged for a same-day
request with years = 5: the years argument takes no part in the hit test,
so the request IS served the stale cached distributions (here visibly
different from what the 5-year fetch would produce). -/
theorem same_day_window_change_served_stale :
    get_cached_freq ⟨some 0, some [(1, 2)], some [(2, 3)]⟩ 0 5
        (fun y => ([(y, 1)], [(y, 1)]))
      = (([(1, 2)], [(2, 3)]), ⟨some 0, some [(1, 2)], some [(2, 3)]⟩) ∧
    (([((1 : Int), (2 : Nat))], [((2 : Int), (3 : Nat))]) : Freq × Freq)
      ≠ ([(5, 1)], [(5, 1)]) := ⟨rfl, by decide⟩

/-- C5 as amended: the cached distributions are recomputed only when the
cache epoch (calendar day) differs from the stamp or the slot is not fully
populated; the historical-window size is not part of the cache test, so a
same-day request with a different window is served the cached pair
unchanged. -/
theorem cache_refresh_daily_only :
    (∀ (c : CacheEntry) (today years : Int) (fetch : Int → Freq × Freq) (m sp : Freq),
       c.ts = some today → c.main_freq = some m → c.special_freq = some sp →
       get_cached_freq c today years fetch = ((m, sp), c)) ∧
    (∀ (c : CacheEntry) (today years : Int) (fetch : Int → Freq × Freq) (d : Int),
       c.ts = some d → d ≠ today →
       get_cached_freq c today years fetch = refreshCache today years fetch) := by
  constructor
  · intro c today years fetch m sp hts hm hsp
    obtain ⟨ts, mf, sf⟩ := c
    dsimp only at hts hm hsp
    subst hts
    subst hm
    subst hsp
    unfold get_cached_freq
    simp
  · intro c today years fetch d hts hne
    obtain ⟨ts, mf, sf⟩ := c
    dsimp only at hts
    subst hts
    cases mf with
    | none => rfl
    | some m =>
      cases sf with
      | none => rfl
      | some sp =>
        unfold get_cached_freq
        simp [hne]

/-- Witness for C5: the amended statement at a concrete populated slot. -/
theorem cache_refresh_daily_only_witness :
    get_cached_freq ⟨some 7, some [(1, 1)], some [(2, 1)]⟩ 7 20 (fun _ => ([], []))
      = (([(1, 1)], [(2, 1)]), ⟨some 7, some [(1, 1)], some [(2, 1)]⟩) :=
  cache_refresh_daily_only.1 ⟨some 7, some [(1, 1)], some [(2, 1)]⟩ 7 20
    (fun _ => ([], [])) [(1, 1)] [(2, 1)] rfl rfl rfl

/-- Counterexample for C6: a record whose Winning Numbers cell holds the
non-numeric token x is not silently excluded: int() raises, so the whole
build fails with an error instead of building from the remaining records. -/
theorem non_numeric_token_aborts_build :
    build [⟨some 2026, some "1 2 x 4 5", some "10"⟩] 2026 5
      = Except.error "invalid literal for int()" := rfl

/-- C6 as amended: records with unparseable dates are excluded silently, and
missing (NaN) field values are skipped silently per column; but a present,
non-numeric number field is not excluded: it raises an error that aborts
the whole build. -/
theorem builder_silent_exclusion_scope :
    (∀ (rows : List Row) (cy yrs : Int) (r : Row),
       r.drawYear = none → build (r :: rows) cy yrs = build rows cy yrs) ∧
    (∀ (rows : List Row) (cy yrs : Int) (r : Row),
       r.winningNumbers = none → r.special = none →
       build (r :: rows) cy yrs = build rows cy yrs) ∧
    (∀ (rows : List Row) (cy yrs : Int),
       (∃ r ∈ load_filter rows cy yrs, ∃ t ∈ rowMainTokens r, parseIntTok t = none) →
       ∃ e, build rows cy yrs = Except.error e) := by
  refine ⟨?_, ?_, ?_⟩
  · intro rows cy yrs r hry
    unfold build load_filter
    rw [List.filter_cons]
    simp [hry]
  · intro rows cy yrs r hwn hsp
    have hmt : rowMainTokens r = [] := by
      unfold rowMainTokens
      rw [hwn]
    unfold build load_filter
    rw [List.filter_cons]
    split
    · show parse_numbers (r :: List.filter _ rows) = parse_numbers (List.filter _ rows)
      unfold parse_numbers
      rw [List.flatMap_cons, hmt, List.nil_append, List.filterMap_cons, hsp]
    · rfl
  · rintro rows cy yrs ⟨r, hr, t, ht, hbad⟩
    obtain ⟨e, he⟩ :=
      intList_error_of_bad _ ⟨t, List.mem_flatMap.mpr ⟨r, hr, ht⟩, hbad⟩
    refine ⟨e, ?_⟩
    unfold build parse_numbers
    rw [he]

/-- Witness for C6: the amended statement at concrete inputs: a row with an
unparseable date is dropped without error. -/
theorem builder_silent_exclusion_scope_witness :
    build [⟨none, some "1 2", some "3"⟩] 2026 5 = build [] 2026 5 :=
  builder_silent_exclusion_scope.1 [] 2026 5 ⟨none, some "1 2", some "3"⟩ rfl

/-- C7: on the weighted path every main number of a returned ticket is a key
of the main frequency distribution: a value with no entry has zero selection
probability and can never appear, whatever the random stream does. -/
theorem weighted_mains_from_dist_support :
    ∀ (mr sr : Int) (mc : Nat) (mf sf : Freq) (s : RandS) (fuel : Nat)
      (t : Ticket) (s2 : RandS),
      generate_ticket mr sr mc true (some mf) (some sf) s fuel = GenResult.ok t s2 →
      ∀ x ∈ t.mainNums, x ∈ keys mf := by
  intro mr sr mc mf sf s fuel t s2 h
  exact (generate_weighted_ok_inv h).2.2.2.1

/-- Witness for C7: a concrete weighted generation whose single main number
7 is a key of the distribution {7:2}. -/
theorem weighted_mains_from_dist_support_witness :
    (7 : Int) ∈ keys [((7 : Int), (2 : Nat))] :=
  weighted_mains_from_dist_support 69 26 1 [(7, 2)] [(3, 1)] czero 2
    ⟨[7], 3⟩ czero rfl 7 (by decide)

/-- C8: the window filter retains exactly the records whose parsed draw year
is at least currentYear minus windowYears; in particular a record whose year
equals the boundary year is included. -/
theorem window_filter_boundary_inclusive :
    (∀ (rows : List Row) (cy yrs : Int) (r : Row),
       r ∈ load_filter rows cy yrs ↔
         r ∈ rows ∧ ∃ y, r.drawYear = some y ∧ cy - yrs ≤ y) ∧
    (∀ (rows : List Row) (cy yrs : Int) (r : Row),
       r ∈ rows → r.drawYear = some (cy - yrs) → r ∈ load_filter rows cy yrs) := by
  have hmain : ∀ (rows : List Row) (cy yrs : Int) (r : Row),
      r ∈ load_filter rows cy yrs ↔
        r ∈ rows ∧ ∃ y, r.drawYear = some y ∧ cy - yrs ≤ y := by
    intro rows cy yrs r
    unfold load_filter
    rw [List.mem_filter]
    constructor
    · rintro ⟨hin, hp⟩
      refine ⟨hin, ?_⟩
      cases hry : r.drawYear with
      | none => rw [hry] at hp; simp at hp
      | some y =>
        rw [hry] at hp
        simp only [decide_eq_true_eq] at hp
        exact ⟨y, rfl, hp⟩
    · rintro ⟨hin, y, hy, hle⟩
      refine ⟨hin, ?_⟩
      rw [hy]
      simpa using hle
  exact ⟨hmain, fun rows cy yrs r hin hy =>
    (hmain rows cy yrs r).mpr ⟨hin, cy - yrs, hy, le_refl _⟩⟩

/-- Witness for C8: a record dated exactly at the boundary year 2021 is
retained by a 5-year window from 2026. -/
theorem window_filter_boundary_inclusive_witness :
    (⟨some 2021, none, none⟩ : Row) ∈ load_filter [⟨some 2021, none, none⟩] 2026 5 :=
  window_filter_boundary_inclusive.2 [⟨some 2021, none, none⟩] 2026 5
    ⟨some 2021, none, none⟩ (by decide) (by decide)

/-- C9: the Frequency Builder is deterministic (two calls on the same input
return the same result), and permuting the input records does not change the
tally that either resulting distribution assigns to any value. -/
theorem builder_deterministic_order_invariant :
    (∀ (rows : List Row) (cy yrs : Int), build rows cy yrs = build rows cy yrs) ∧
    (∀ (rows1 rows2 : List Row) (cy yrs : Int) (m1 s1 m2 s2 : Freq),
       rows1.Perm rows2 →
       build rows1 cy yrs = Except.ok (m1, s1) →
       build rows2 cy yrs = Except.ok (m2, s2) →
       (∀ v, tally m1 v = tally m2 v) ∧ (∀ v, tally s1 v = tally s2 v)) := by
  refine ⟨fun _ _ _ => rfl, ?_⟩
  intro rows1 rows2 cy yrs m1 s1 m2 s2 hperm h1 h2
  have hF : (load_filter rows1 cy yrs).Perm (load_filter rows2 cy yrs) :=
    hperm.filter _
  unfold build at h1 h2
  obtain ⟨hm1, hs1⟩ := parse_numbers_ok_inv h1
  obtain ⟨hm2, hs2⟩ := parse_numbers_ok_inv h2
  subst hm1
  subst hs1
  subst hm2
  subst hs2
  constructor
  · intro v
    rw [tally_value_counts, tally_value_counts]
    exact ((List.Perm.flatMap_right rowMainTokens hF).filterMap parseIntTok).count_eq v
  · intro v
    rw [tally_value_counts, tally_value_counts]
    exact (((hF.filterMap (fun r => r.special)).map (fun s => s.data)).filterMap
      parseIntTok).count_eq v

/-- Witness for C9: two swapped record lists yield distributions assigning
the same tally, here checked at value 2. -/
theorem builder_deterministic_order_invariant_witness :
    tally [((1 : Int), (1 : Nat)), (2, 2), (3, 1)] 2
      = tally [((3 : Int), (1 : Nat)), (1, 1), (2, 2)] 2 :=
  ((builder_deterministic_order_invariant.2
      [⟨some 2026, some "1 2", some "10"⟩, ⟨some 2026, some "2 3", some "10"⟩]
      [⟨some 2026, some "2 3", some "10"⟩, ⟨some 2026, some "1 2", some "10"⟩]
      2026 5 [(1, 1), (2, 2), (3, 1)] [(10, 2)] [(3, 1), (1, 1), (2, 2)] [(10, 2)]
      (List.Perm.swap _ _ _) rfl rfl).1) 2

/-- C10: the weighted branch requires both distributions; when either one is
absent the whole request is served exactly as a uniform request, for both
the main numbers and the special number. -/
theorem weighted_requires_both_dists :
    ∀ (mr sr : Int) (mc : Nat) (mf sf : Option Freq) (s : RandS) (fuel : Nat),
      mf = none ∨ sf = none →
      generate_ticket mr sr mc true mf sf s fuel
        = generate_ticket mr sr mc false mf sf s fuel := by
  intro mr sr mc mf sf s fuel h
  rcases h with rfl | rfl
  · cases sf <;> rfl
  · cases mf <;> rfl

/-- Witness for C10: at a concrete request with an absent main distribution
the weighted and uniform calls coincide. -/
theorem weighted_requires_both_dists_witness :
    generate_ticket 5 3 2 true none (some [(1, 1)]) czero 0
      = generate_ticket 5 3 2 false none (some [(1, 1)]) czero 0 :=
  weighted_requires_both_dists 5 3 2 none (some [(1, 1)]) czero 0 (Or.inl rfl)

end LottoApp
